import Mathlib

/-!
# Verification of the STM model core (cmt)

Shallow embedding of `src/code/cmt/src/stm.cpp` (the spike-triggered mixture
model): the response computation, parameter packing, the batched gradient
accumulator with regularization and NaN guard, and the degenerate training
shortcuts.  Matrices are embedded column-wise: an Eigen matrix of shape
`d × N` becomes a `List (Fin d → ℝ)` of its `N` columns, since every
operation of the embedded code acts column-independently.  Machine doubles
are embedded as real numbers; the two places where floating-point behaviour
itself is at issue (overflow in `exp`, the NaN guard) are modelled
explicitly via `oexp`/`nanGuard` below.
-/

open scoped BigOperators
open scoped Classical

noncomputable section

/-- The largest finite IEEE-754 double, `(2 - 2^-52) * 2^1023`. -/
def maxFiniteDouble : ℝ := 2 ^ 1024 - 2 ^ 971

/-- Maximum entry of a vector over `Fin K` (0 if `K = 0`; the model
guarantees `K ≥ 1`). -/
def vecMax {K : ℕ} (e : Fin K → ℝ) : ℝ :=
  if h : 0 < K then
    Finset.univ.sup' (Finset.univ_nonempty_iff.mpr (Fin.pos_iff_nonempty.mp h)) e
  else 0

/-- Modelled from the spec: `logSumExp` from `utils.h` (not under `src/`):
"`logsumexp` over c must subtract the per-column maximum before
exponentiating".  Per column, with `M` the maximum energy, it computes
`log (Σ_c exp (e c - M)) + M`. -/
def logSumExp {K : ℕ} (e : Fin K → ℝ) : ℝ :=
  Real.log (∑ c, Real.exp (e c - vecMax e)) + vecMax e

/-- Overflow-aware `exp` on doubles: `exp x` overflows to infinity exactly
when the real result exceeds the largest finite double. -/
def oexp (x : ℝ) : Option ℝ :=
  if Real.exp x ≤ maxFiniteDouble then some (Real.exp x) else none

/-- Overflow-aware sum of exponentials: since all summands are positive,
some intermediate of `Σ_c exp (e c)` overflows iff the total exceeds the
largest finite double. -/
def osumExp {K : ℕ} (e : Fin K → ℝ) : Option ℝ :=
  if (∑ c, Real.exp (e c)) ≤ maxFiniteDouble then some (∑ c, Real.exp (e c)) else none

/-- Overflow-aware evaluation of the stable pooling `logSumExp`. -/
def oLogSumExp {K : ℕ} (e : Fin K → ℝ) : Option ℝ :=
  (osumExp (fun c => e c - vecMax e)).map (fun s => Real.log s + vecMax e)

/-- The STM model state (`stm.cpp`): `biases` (length `K`), `weights`
(`K × F`), `features` (`Dnl × F`), `predictors` (`K × Dnl`),
`linearPredictor` (length `Dl`). -/
@[ext]
structure STM (K F Dnl Dl : ℕ) where
  biases : Fin K → ℝ
  weights : Fin K → Fin F → ℝ
  features : Fin Dnl → Fin F → ℝ
  predictors : Fin K → Fin Dnl → ℝ
  linearPredictor : Fin Dl → ℝ

namespace STM

variable {K F Dnl Dl : ℕ}

/-- The entry `mBiases[0]`, with the junk value 0 when `K = 0` (the constructor
enforces `K ≥ 1`). -/
def bias0 (m : STM K F Dnl Dl) : ℝ :=
  if h : 0 < K then m.biases ⟨0, h⟩ else 0

/-- Lines 229/255: `numComponents() > 1 ? log(mBiases.array().exp().sum())
: mBiases[0]` — the constant pooled bias used when the nonlinear input is
empty.  Note the `K > 1` branch exponentiates the raw biases. -/
def constResponse (m : STM K F Dnl Dl) : ℝ :=
  if 1 < K then Real.log (∑ c, Real.exp (m.biases c)) else m.bias0

/-- Line 229 under the overflow model: the `K > 1` branch of the constant
response exponentiates the raw biases without subtracting their maximum. -/
def oconstResponse (m : STM K F Dnl Dl) : Option ℝ :=
  if 1 < K then (osumExp m.biases).map Real.log else some m.bias0

/-- The product `mFeatures.transpose() * input` per column: entry `f` is
`features[:,f] · x`. -/
def featureOutput (m : STM K F Dnl Dl) (x : Fin Dnl → ℝ) (f : Fin F) : ℝ :=
  ∑ i, m.features i f * x i

/-- Lines 232–234 (and 260–262, 574–575) per column: `jointEnergy[c] =
Σ_f weights[c,f] · (features[:,f]·x)² + predictors[c,:]·x + biases[c]`. -/
def jointEnergy (m : STM K F Dnl Dl) (x : Fin Dnl → ℝ) (c : Fin K) : ℝ :=
  (∑ f, m.weights c f * (m.featureOutput x f) ^ 2)
    + (∑ i, m.predictors c i * x i) + m.biases c

/-- The term `mLinearPredictor.transpose() * inputLinear` per column. -/
def linTerm (m : STM K F Dnl Dl) (xl : Fin Dl → ℝ) : ℝ :=
  ∑ j, m.linearPredictor j * xl j

/-- Lines 224–237 per column, after the shape check, in the `Dl = 0` case
(the only way this branch is reached): the constant branch when the model
has no inputs at all, otherwise pooled joint energies. -/
def responseNL (m : STM K F Dnl Dl) (x : Fin Dnl → ℝ) : ℝ :=
  if 0 < Dnl then logSumExp (m.jointEnergy x) else m.constResponse

/-- Lines 241–265 per column: the two-matrix `STM::response` overload.
When `Dl = 0` the code delegates to the single-matrix overload, whose
shape check passes and which lands in `responseNL`. -/
def responsePair (m : STM K F Dnl Dl) (xnl : Fin Dnl → ℝ) (xl : Fin Dl → ℝ) : ℝ :=
  if 0 < Dl then
    if 0 < Dnl then logSumExp (m.jointEnergy xnl) + m.linTerm xl
    else m.linTerm xl + m.constResponse
  else m.responseNL xnl

/-- Reindex a column along an equality of row counts. -/
def reindex {a b : ℕ} (h : a = b) (x : Fin a → ℝ) : Fin b → ℝ :=
  fun i => x (Fin.cast h.symm i)

/-- The slice `input.topRows(Dnl)` of a stacked column. -/
def topRows {a b : ℕ} (x : Fin (a + b) → ℝ) : Fin a → ℝ :=
  fun i => x (Fin.castAdd b i)

/-- The slice `input.bottomRows(Dl)` of a stacked column. -/
def bottomRows {a b : ℕ} (x : Fin (a + b) → ℝ) : Fin b → ℝ :=
  fun j => x (Fin.natAdd a j)

/-- Errors raised by the embedded functions (`throw Exception(...)`). -/
inductive Err
  | inputDim
  | outputDim
  | colsMismatch
  | notInvertible

/-- Lines 214–237: the single-matrix `STM::response` overload on a matrix
given as a list of columns of height `rows`.  Checks
`input.rows() == dimIn()`, then splits off the linear block when
`dimInLinear()` is positive. -/
def responseSingle (m : STM K F Dnl Dl) (rows : ℕ)
    (X : List (Fin rows → ℝ)) : Except Err (List ℝ) :=
  if h : rows = Dnl + Dl then
    if 0 < Dl then
      .ok (X.map (fun x =>
        m.responsePair (topRows (reindex h x)) (bottomRows (reindex h x))))
    else
      .ok (X.map (fun x => m.responseNL (topRows (reindex h x))))
  else .error .inputDim

/-- Lines 194–210: the two-matrix `STM::logLikelihood` overload per column
list; the nonlinearity `phi` and the distribution log-likelihood `dll`
(data, mean) are the model's polymorphic collaborators.  When `Dl = 0` the
code delegates to the single-matrix overload with the nonlinear block. -/
def logLikelihoodPair (m : STM K F Dnl Dl) (phi : ℝ → ℝ) (dll : ℝ → ℝ → ℝ)
    (Xnl : List (Fin Dnl → ℝ)) (Xl : List (Fin Dl → ℝ)) (Y : List ℝ) :
    Except Err (List ℝ) :=
  if 0 < Dl then
    .ok (List.zipWith (fun y r => dll y (phi r))
      Y (List.zipWith m.responsePair Xnl Xl))
  else
    if Xnl.length = Y.length then
      .ok (List.zipWith (fun y x => dll y (phi (m.responseNL x))) Y Xnl)
    else .error .colsMismatch

/-- Lines 168–190: the single-matrix `STM::logLikelihood` overload.  Checks
`input.rows() == dimIn()`; if `dimInLinear()` is positive it splits the
rows and delegates to the two-matrix overload *before* the column-count
check, otherwise it checks the column counts and evaluates directly. -/
def logLikelihoodSingle (m : STM K F Dnl Dl) (phi : ℝ → ℝ) (dll : ℝ → ℝ → ℝ)
    (rows : ℕ) (X : List (Fin rows → ℝ)) (Y : List ℝ) : Except Err (List ℝ) :=
  if h : rows = Dnl + Dl then
    if 0 < Dl then
      m.logLikelihoodPair phi dll
        (X.map (fun x => topRows (reindex h x)))
        (X.map (fun x => bottomRows (reindex h x))) Y
    else
      if X.length = Y.length then
        .ok (List.zipWith (fun y x => dll y (phi (m.responseNL (topRows (reindex h x))))) Y X)
      else .error .colsMismatch
  else .error .inputDim

/-- The claim's formula for the joint energy, written as in the spec:
`jointEnergy[c,n] = Σ_f weights[c,f]·(features[:,f]·X_nl[:,n])² +
predictors[c,:]·X_nl[:,n] + biases[c]`. -/
def jointEnergySpec (m : STM K F Dnl Dl) (x : Fin Dnl → ℝ) (c : Fin K) : ℝ :=
  (∑ f, m.weights c f * (∑ i, m.features i f * x i) ^ 2)
    + (∑ i, m.predictors c i * x i) + m.biases c

/-- The claim's formula for the pooled response of one column:
logsumexp over components of the joint energy plus the linear term. -/
def responseSpecCol (m : STM K F Dnl Dl) (xnl : Fin Dnl → ℝ) (xl : Fin Dl → ℝ) : ℝ :=
  Real.log (∑ c, Real.exp (m.jointEnergySpec xnl c)) + ∑ j, m.linearPredictor j * xl j

/-- The two-matrix response on whole matrices, column by column. -/
def responseMat (m : STM K F Dnl Dl) (Xnl : List (Fin Dnl → ℝ))
    (Xl : List (Fin Dl → ℝ)) : List ℝ :=
  List.zipWith m.responsePair Xnl Xl

end STM

section PoolingLemmas

variable {K F Dnl Dl : ℕ}

theorem sumExp_pos (hK : 0 < K) (e : Fin K → ℝ) : 0 < ∑ c, Real.exp (e c) :=
  Finset.sum_pos (fun c _ => Real.exp_pos (e c))
    (Finset.univ_nonempty_iff.mpr (Fin.pos_iff_nonempty.mp hK))

/-- The stable pooling equals the brute-force `ln (Σ exp)` in exact
arithmetic. -/
theorem logSumExp_eq_bruteForce (hK : 0 < K) (e : Fin K → ℝ) :
    logSumExp e = Real.log (∑ c, Real.exp (e c)) := by
  unfold logSumExp
  have hpos := sumExp_pos hK e
  have : ∀ c : Fin K, Real.exp (e c - vecMax e) = Real.exp (e c) / Real.exp (vecMax e) :=
    fun c => Real.exp_sub _ _
  rw [Finset.sum_congr rfl (fun c _ => this c), ← Finset.sum_div,
    Real.log_div hpos.ne' (Real.exp_ne_zero _), Real.log_exp]
  ring

/-- Every energy is at most the per-column maximum. -/
theorem le_vecMax (hK : 0 < K) (e : Fin K → ℝ) (c : Fin K) : e c ≤ vecMax e := by
  unfold vecMax
  rw [dif_pos hK]
  exact Finset.le_sup' e (Finset.mem_univ c)

/-- The constant pooled bias (lines 229/255) equals the brute-force
`ln (Σ exp biases)` in exact arithmetic, for both of its branches. -/
theorem constResponse_eq (hK : 0 < K) (m : STM K F Dnl Dl) :
    m.constResponse = Real.log (∑ c, Real.exp (m.biases c)) := by
  unfold STM.constResponse
  split
  · rfl
  · rename_i h
    have hK1 : K = 1 := by omega
    subst hK1
    simp [STM.bias0, Fin.sum_univ_one, Real.log_exp]

/-- With no nonlinear inputs every sum in the joint-energy formula is
empty, leaving only the bias. -/
theorem jointEnergySpec_of_dnl_zero (m : STM K F 0 Dl) (x : Fin 0 → ℝ) (c : Fin K) :
    m.jointEnergySpec x c = m.biases c := by
  simp [STM.jointEnergySpec]

/-- The code's joint energy and the spec's formula agree. -/
theorem jointEnergy_eq_spec (m : STM K F Dnl Dl) (x : Fin Dnl → ℝ) (c : Fin K) :
    m.jointEnergy x c = m.jointEnergySpec x c := rfl

/-- The per-column two-matrix response equals the claim's formula in every
branch. -/
theorem responsePair_eq_spec (hK : 0 < K) (m : STM K F Dnl Dl)
    (xnl : Fin Dnl → ℝ) (xl : Fin Dl → ℝ) :
    m.responsePair xnl xl = m.responseSpecCol xnl xl := by
  unfold STM.responsePair STM.responseSpecCol STM.responseNL STM.linTerm
  rcases Nat.eq_zero_or_pos Dl with hDl | hDl
  · subst hDl
    rcases Nat.eq_zero_or_pos Dnl with hDnl | hDnl
    · subst hDnl
      simp [constResponse_eq hK m, jointEnergySpec_of_dnl_zero]
    · simp only [lt_irrefl, if_false, if_pos hDnl]
      rw [logSumExp_eq_bruteForce hK]
      simp [jointEnergy_eq_spec]
  · rcases Nat.eq_zero_or_pos Dnl with hDnl | hDnl
    · subst hDnl
      rw [if_pos hDl, if_neg (lt_irrefl 0), constResponse_eq hK m]
      have : ∀ c : Fin K, m.jointEnergySpec xnl c = m.biases c :=
        jointEnergySpec_of_dnl_zero m xnl
      simp only [this]
      ring
    · rw [if_pos hDl, if_pos hDnl, logSumExp_eq_bruteForce hK]
      simp [jointEnergy_eq_spec]

end PoolingLemmas

section OverflowLemmas

variable {K F Dnl Dl : ℕ}

theorem one_le_maxFiniteDouble : (1 : ℝ) ≤ maxFiniteDouble := by
  unfold maxFiniteDouble
  have h : (2:ℝ) ^ 971 * 1 ≤ 2 ^ 971 * 2 ^ 53 := by
    have : (1:ℝ) ≤ 2 ^ 53 := one_le_pow₀ one_le_two
    nlinarith [pow_pos (by norm_num : (0:ℝ) < 2) 971]
  have h2 : (2:ℝ) ^ 971 * 2 ^ 53 = 2 ^ 1024 := by
    rw [← pow_add]
  nlinarith [pow_pos (by norm_num : (0:ℝ) < 2) 971]

theorem maxFiniteDouble_lt_exp_1e4 : maxFiniteDouble < Real.exp (10 ^ 4) := by
  have h2 : (0:ℝ) < 2 ^ 1024 := by positivity
  have hlt : (2:ℝ) ^ 1024 < Real.exp (10 ^ 4) := by
    rw [← Real.exp_log h2, Real.exp_lt_exp, Real.log_pow]
    have hl2 := Real.log_two_lt_d9
    push_cast
    nlinarith
  have : maxFiniteDouble < 2 ^ 1024 := by
    unfold maxFiniteDouble
    have : (0:ℝ) < 2 ^ 971 := by positivity
    linarith
  linarith

/-- The stable pooling never exponentiates a positive quantity: after
subtracting the maximum every exponent is non-positive, so no summand
exceeds 1 and the sum is at most `K`. -/
theorem oLogSumExp_no_overflow (hK : 0 < K) (hKd : (K : ℝ) ≤ maxFiniteDouble)
    (e : Fin K → ℝ) : oLogSumExp e = some (logSumExp e) := by
  unfold oLogSumExp osumExp
  have hle : (∑ c, Real.exp (e c - vecMax e)) ≤ maxFiniteDouble := by
    have h1 : (∑ c, Real.exp (e c - vecMax e)) ≤ ∑ _c : Fin K, (1:ℝ) := by
      refine Finset.sum_le_sum (fun c _ => ?_)
      rw [Real.exp_le_one_iff]
      have := le_vecMax hK e c
      linarith
    simp only [Finset.sum_const, Finset.card_univ, Fintype.card_fin, nsmul_eq_mul,
      mul_one] at h1
    linarith
  rw [if_pos hle]
  rfl

end OverflowLemmas

section WitnessModels

/-- A tiny concrete model for witnesses: `K = F = Dnl = Dl = 1`. -/
def mW1 : STM 1 1 1 1 :=
  ⟨fun _ => 1, fun _ _ => 2, fun _ _ => 3, fun _ _ => 4, fun _ => 5⟩

/-- A two-component zero-input model whose biases have magnitude `1e4`. -/
def mBig : STM 2 0 0 0 :=
  ⟨fun _ => 10 ^ 4, fun _ f => f.elim0, fun i _ => i.elim0, fun _ i => i.elim0,
    fun j => j.elim0⟩

end WitnessModels

/-- The regularizer mode of `STM::Parameters`. -/
inductive Regularizer
  | L1
  | L2

/-- The STM training configuration (`STM::Parameters`): trainability flags,
per-block regularization coefficients, regularizer mode and the batch size
inherited from `Trainable::Parameters`. -/
structure TrainParams where
  trainBiases : Bool
  trainWeights : Bool
  trainFeatures : Bool
  trainPredictors : Bool
  trainLinearPredictor : Bool
  regularizeWeights : ℝ
  regularizeFeatures : ℝ
  regularizePredictors : ℝ
  regularizeLinearPredictor : ℝ
  regularizer : Regularizer
  batchSize : ℕ

/-- A vector copied out entry by entry (`x[k] = v.data()[i]`). -/
def flattenVec {n : ℕ} (v : Fin n → ℝ) : List ℝ := List.ofFn v

/-- A matrix copied out entry by entry from Eigen's column-major `.data()`:
entry `k` of the flat run is `M[k % rows, k / rows]`. -/
def flattenMat {a b : ℕ} (M : Fin a → Fin b → ℝ) : List ℝ :=
  List.ofFn (fun k : Fin (b * a) =>
    M ⟨k.val % a, Nat.mod_lt _ (Nat.pos_of_ne_zero (fun h => by
        have hlt : (k : ℕ) < b * a := k.isLt; simp [h] at hlt))⟩
      ⟨k.val / a, (Nat.div_lt_iff_lt_mul (Nat.pos_of_ne_zero (fun h => by
        have hlt : (k : ℕ) < b * a := k.isLt; simp [h] at hlt))).mpr k.isLt⟩)

/-- Re-interpret a span of the flat vector as a vector (`VectorLBFGS`). -/
def readVec (x : List ℝ) (off n : ℕ) : Fin n → ℝ :=
  fun i => x.getD (off + i.val) 0

/-- Re-interpret a span of the flat vector as a column-major matrix
(`MatrixLBFGS`). -/
def readMat (x : List ℝ) (off a b : ℕ) : Fin a → Fin b → ℝ :=
  fun i j => x.getD (off + (j.val * a + i.val)) 0

namespace STM

variable {K F Dnl Dl : ℕ}

/-- Lines 433–456, `STM::parameters`: copy the flagged blocks into a fresh
flat vector, in the fixed order biases, weights, features, predictors,
linearPredictor. -/
def parameters (m : STM K F Dnl Dl) (p : TrainParams) : List ℝ :=
  (if p.trainBiases then flattenVec m.biases else [])
    ++ ((if p.trainWeights then flattenMat m.weights else [])
    ++ ((if p.trainFeatures then flattenMat m.features else [])
    ++ ((if p.trainPredictors then flattenMat m.predictors else [])
    ++ (if p.trainLinearPredictor then flattenVec m.linearPredictor else []))))

/-- Lines 460–489, `STM::setParameters`: re-interpret contiguous spans of
`x` as the flagged blocks, in the same order and with matching shapes;
non-flagged blocks are left untouched. -/
def setParameters (m : STM K F Dnl Dl) (x : List ℝ) (p : TrainParams) :
    STM K F Dnl Dl :=
  let o1 := if p.trainBiases then K else 0
  let o2 := o1 + (if p.trainWeights then F * K else 0)
  let o3 := o2 + (if p.trainFeatures then F * Dnl else 0)
  let o4 := o3 + (if p.trainPredictors then Dnl * K else 0)
  { biases := if p.trainBiases then readVec x 0 K else m.biases
    weights := if p.trainWeights then readMat x o1 K F else m.weights
    features := if p.trainFeatures then readMat x o2 Dnl F else m.features
    predictors := if p.trainPredictors then readMat x o3 K Dnl else m.predictors
    linearPredictor :=
      if p.trainLinearPredictor then readVec x o4 Dl else m.linearPredictor }

end STM

section PackingLemmas

variable {K F Dnl Dl : ℕ}

theorem getD_ofFn {n : ℕ} (f : Fin n → ℝ) (i : Fin n) :
    (List.ofFn f).getD i.val 0 = f i := by
  rw [List.getD_eq_getElem _ _ (by simp [i.isLt])]
  simp

theorem getD_append_offset (xs ys : List ℝ) (k : ℕ) :
    (xs ++ ys).getD (xs.length + k) 0 = ys.getD k 0 := by
  rw [List.getD_append_right _ _ _ _ (Nat.le_add_right _ _)]
  congr 1
  omega

/-- Reading a flattened vector back from its span reproduces it. -/
theorem readVec_flattenVec {n : ℕ} (v : Fin n → ℝ) (rest : List ℝ) :
    readVec (flattenVec v ++ rest) 0 n = v := by
  funext i
  unfold readVec flattenVec
  rw [Nat.zero_add, List.getD_append _ _ _ _ (by simp [i.isLt])]
  exact getD_ofFn v i

theorem flattenVec_length {n : ℕ} (v : Fin n → ℝ) : (flattenVec v).length = n := by
  simp [flattenVec]

theorem flattenMat_length {a b : ℕ} (M : Fin a → Fin b → ℝ) :
    (flattenMat M).length = b * a := by
  simp [flattenMat]

/-- Reading back the column-major entry `j*a + i` of a flattened matrix
gives `M i j`. -/
theorem flattenMat_getD {a b : ℕ} (M : Fin a → Fin b → ℝ) (i : Fin a) (j : Fin b) :
    (flattenMat M).getD (j.val * a + i.val) 0 = M i j := by
  have ha : 0 < a := i.pos
  have hk : j.val * a + i.val < b * a := by
    have h1 : j.val * a + i.val < (j.val + 1) * a := by
      have := i.isLt
      nlinarith
    have h2 : (j.val + 1) * a ≤ b * a :=
      Nat.mul_le_mul_right a (Nat.succ_le_of_lt j.isLt)
    omega
  unfold flattenMat
  rw [show j.val * a + i.val = (⟨j.val * a + i.val, hk⟩ : Fin (b * a)).val from rfl,
    getD_ofFn]
  congr 1
  · apply Fin.ext
    show (j.val * a + i.val) % a = i.val
    rw [Nat.add_comm, Nat.add_mul_mod_self_right, Nat.mod_eq_of_lt i.isLt]
  · apply Fin.ext
    show (j.val * a + i.val) / a = j.val
    rw [Nat.mul_comm j.val a, Nat.mul_add_div ha, Nat.div_eq_of_lt i.isLt,
      Nat.add_zero]

/-- Reading a flattened matrix back from its span reproduces it. -/
theorem readMat_flattenMat (pre rest : List ℝ) {a b : ℕ} (M : Fin a → Fin b → ℝ) :
    readMat (pre ++ (flattenMat M ++ rest)) pre.length a b = M := by
  funext i j
  unfold readMat
  rw [getD_append_offset,
    List.getD_append _ _ _ _ (by
      rw [flattenMat_length]
      have h1 : j.val * a + i.val < (j.val + 1) * a := by
        have := i.isLt; nlinarith
      have h2 : (j.val + 1) * a ≤ b * a :=
        Nat.mul_le_mul_right a (Nat.succ_le_of_lt j.isLt)
      omega)]
  exact flattenMat_getD M i j

theorem readVec_at (pre rest : List ℝ) {n : ℕ} (v : Fin n → ℝ) :
    readVec (pre ++ (flattenVec v ++ rest)) pre.length n = v := by
  funext i
  unfold readVec
  rw [getD_append_offset, List.getD_append _ _ _ _ (by simp [flattenVec, i.isLt])]
  exact getD_ofFn v i

theorem readMat_at' (x pre rest : List ℝ) {a b : ℕ} (M : Fin a → Fin b → ℝ)
    (hx : x = pre ++ (flattenMat M ++ rest)) (off : ℕ) (hoff : off = pre.length) :
    readMat x off a b = M := by
  subst hx; subst hoff; exact readMat_flattenMat pre rest M

theorem readVec_at' (x pre rest : List ℝ) {n : ℕ} (v : Fin n → ℝ)
    (hx : x = pre ++ (flattenVec v ++ rest)) (off : ℕ) (hoff : off = pre.length) :
    readVec x off n = v := by
  subst hx; subst hoff; exact readVec_at pre rest v

end PackingLemmas

/-- C2: `parameters` followed by `setParameters` with the same configuration
reproduces every parameter block exactly, and `setParameters` leaves blocks
not flagged trainable untouched for any flat vector. -/
theorem claim2_parameters_roundtrip {K F Dnl Dl : ℕ} (m : STM K F Dnl Dl)
    (p : TrainParams) :
    m.setParameters (m.parameters p) p = m
    ∧ (∀ x, p.trainBiases = false → (m.setParameters x p).biases = m.biases)
    ∧ (∀ x, p.trainWeights = false → (m.setParameters x p).weights = m.weights)
    ∧ (∀ x, p.trainFeatures = false → (m.setParameters x p).features = m.features)
    ∧ (∀ x, p.trainPredictors = false →
        (m.setParameters x p).predictors = m.predictors)
    ∧ (∀ x, p.trainLinearPredictor = false →
        (m.setParameters x p).linearPredictor = m.linearPredictor) := by
  refine ⟨?_, ?_, ?_, ?_, ?_, ?_⟩
  · set LB : List ℝ := if p.trainBiases then flattenVec m.biases else [] with hLB
    set LW : List ℝ := if p.trainWeights then flattenMat m.weights else [] with hLW
    set LF : List ℝ := if p.trainFeatures then flattenMat m.features else [] with hLF
    set LP : List ℝ := if p.trainPredictors then flattenMat m.predictors else []
      with hLP
    set LL : List ℝ := if p.trainLinearPredictor then flattenVec m.linearPredictor
      else [] with hLL
    have hX : m.parameters p = LB ++ (LW ++ (LF ++ (LP ++ LL))) := rfl
    have hlB : LB.length = (if p.trainBiases then K else 0) := by
      rw [hLB]; split <;> simp [flattenVec]
    have hlW : LW.length = (if p.trainWeights then F * K else 0) := by
      rw [hLW]; split <;> simp [flattenMat]
    have hlF : LF.length = (if p.trainFeatures then F * Dnl else 0) := by
      rw [hLF]; split <;> simp [flattenMat]
    have hlP : LP.length = (if p.trainPredictors then Dnl * K else 0) := by
      rw [hLP]; split <;> simp [flattenMat]
    ext : 1
    · show (if p.trainBiases then readVec (m.parameters p) 0 K else m.biases) = _
      by_cases hb : p.trainBiases
      · rw [if_pos hb]
        refine readVec_at' _ [] (LW ++ (LF ++ (LP ++ LL))) _ ?_ _ rfl
        rw [hX, hLB, if_pos hb]
        simp
      · rw [if_neg hb]
    · show (if p.trainWeights then
          readMat (m.parameters p) (if p.trainBiases then K else 0) K F
        else m.weights) = _
      by_cases hw : p.trainWeights
      · rw [if_pos hw]
        refine readMat_at' _ LB (LF ++ (LP ++ LL)) _ ?_ _ (by rw [hlB])
        rw [hX, hLW, if_pos hw]
      · rw [if_neg hw]
    · show (if p.trainFeatures then
          readMat (m.parameters p)
            ((if p.trainBiases then K else 0) + (if p.trainWeights then F * K else 0))
            Dnl F
        else m.features) = _
      by_cases hf : p.trainFeatures
      · rw [if_pos hf]
        refine readMat_at' _ (LB ++ LW) (LP ++ LL) _ ?_ _
          (by rw [List.length_append, hlB, hlW])
        rw [hX, hLF, if_pos hf]
        simp [List.append_assoc]
      · rw [if_neg hf]
    · show (if p.trainPredictors then
          readMat (m.parameters p)
            ((if p.trainBiases then K else 0) + (if p.trainWeights then F * K else 0)
              + (if p.trainFeatures then F * Dnl else 0)) K Dnl
        else m.predictors) = _
      by_cases hp : p.trainPredictors
      · rw [if_pos hp]
        refine readMat_at' _ (LB ++ LW ++ LF) LL _ ?_ _
          (by rw [List.length_append, List.length_append, hlB, hlW, hlF])
        rw [hX, hLP, if_pos hp]
        simp [List.append_assoc]
      · rw [if_neg hp]
    · show (if p.trainLinearPredictor then
          readVec (m.parameters p)
            ((if p.trainBiases then K else 0) + (if p.trainWeights then F * K else 0)
              + (if p.trainFeatures then F * Dnl else 0)
              + (if p.trainPredictors then Dnl * K else 0)) Dl
        else m.linearPredictor) = _
      by_cases hl : p.trainLinearPredictor
      · rw [if_pos hl]
        refine readVec_at' _ (LB ++ LW ++ LF ++ LP) [] _ ?_ _
          (by rw [List.length_append, List.length_append, List.length_append,
            hlB, hlW, hlF, hlP])
        rw [hX, hLL, if_pos hl]
        simp [List.append_assoc]
      · rw [if_neg hl]
  all_goals
    intro x hflag
    simp [STM.setParameters, hflag]

/-- Witness for C2: the untouched-block clauses discharged at a concrete
configuration with every flag off. -/
theorem claim2_witness :
    mW1.setParameters (mW1.parameters
        ⟨false, false, false, false, false, 0, 0, 0, 0, .L2, 10⟩)
        ⟨false, false, false, false, false, 0, 0, 0, 0, .L2, 10⟩ = mW1
    ∧ (mW1.setParameters [9]
        ⟨false, false, false, false, false, 0, 0, 0, 0, .L2, 10⟩).biases
        = mW1.biases :=
  ⟨(claim2_parameters_roundtrip mW1 _).1,
    (claim2_parameters_roundtrip mW1
      ⟨false, false, false, false, false, 0, 0, 0, 0, .L2, 10⟩).2.1 [9] rfl⟩

/-- One training example: a nonlinear input column, a linear input column
and the scalar output. -/
structure Sample (Dnl Dl : ℕ) where
  xnl : Fin Dnl → ℝ
  xl : Fin Dl → ℝ
  y : ℝ

/-- The differentiable-nonlinearity facet used by `parameterGradient`
(`DifferentiableNonlinearity`): forward transform and derivative. -/
structure Link where
  phi : ℝ → ℝ
  dphi : ℝ → ℝ

/-- The univariate output distribution (`UnivariateDistribution`), named `ODist` to avoid clashing with the metric-space class:
log-likelihood of (data, mean), and derivative of the negative
log-likelihood with respect to the mean. -/
structure ODist where
  ll : ℝ → ℝ → ℝ
  dgrad : ℝ → ℝ → ℝ

/-- The batch loop `for(b = 0; b < N; b += batchSize)`: consecutive batches
of `bs` examples (the last one possibly shorter).  `bs = 0` cannot occur:
the code clamps the batch size below by 10. -/
def chunks {α : Type} (bs : ℕ) (xs : List α) : List (List α) :=
  if h : xs = [] ∨ bs = 0 then [] else xs.take bs :: chunks bs (xs.drop bs)
termination_by xs.length
decreasing_by
  push_neg at h
  obtain ⟨h1, h2⟩ := h
  have : 0 < xs.length := List.length_pos.mpr h1
  simp only [List.length_drop]
  omega

theorem chunks_flatten {α : Type} (bs : ℕ) (hbs : bs ≠ 0) (xs : List α) :
    (chunks bs xs).flatten = xs := by
  by_cases h : xs = []
  · subst h; rw [chunks]; simp
  · rw [chunks, dif_neg (by push_neg; exact ⟨h, hbs⟩)]
    simp only [List.flatten_cons]
    rw [chunks_flatten bs hbs (xs.drop bs)]
    exact List.take_append_drop bs xs
termination_by xs.length
decreasing_by
  have : 0 < xs.length := List.length_pos.mpr h
  simp only [List.length_drop]
  omega

/-- Sum of per-batch contributions, each batch contributing the sum of its
per-example values: the shape of every `#pragma omp critical`
accumulation in `parameterGradient`. -/
def batchedSum {α : Type} (bs : ℕ) (f : α → ℝ) (xs : List α) : ℝ :=
  ((chunks bs xs).map (fun b => (b.map f).sum)).sum

/-- Batched accumulation equals the plain per-example sum. -/
theorem batchedSum_eq_sum {α : Type} (bs : ℕ) (hbs : bs ≠ 0) (f : α → ℝ)
    (xs : List α) : batchedSum bs f xs = (xs.map f).sum := by
  unfold batchedSum
  have h1 : (chunks bs xs).map (fun b => (b.map f).sum)
      = ((chunks bs xs).map (List.map f)).map List.sum := by
    rw [List.map_map]; rfl
  rw [h1, ← List.sum_flatten, ← List.map_flatten, chunks_flatten bs hbs]

/-- Reordering the batches does not change the accumulated value. -/
theorem batchedSum_perm {α : Type} (bs : ℕ) (f : α → ℝ) (xs : List α)
    (L : List (List α)) (hL : (chunks bs xs).Perm L) :
    batchedSum bs f xs = (L.map (fun b => (b.map f).sum)).sum :=
  List.Perm.sum_eq (hL.map _)

/-- Line 559: `batchSize = min(max(params.batchSize, 10), numData)`. -/
def clampBatch (p : TrainParams) (numData : ℕ) : ℕ :=
  min (max p.batchSize 10) numData

theorem clampBatch_ne_zero (p : TrainParams) {n : ℕ} (hn : 0 < n) :
    clampBatch p n ≠ 0 := by
  unfold clampBatch
  omega

/-- The value `dimOut()` of the STM: a single scalar output. -/
def stmDimOut : ℕ := 1

/-- Line 626: `normConst = inputCompl.cols() * log(2.) * dimOut()`. -/
def normConst (N : ℕ) : ℝ := N * Real.log 2 * stmDimOut

/-- Modelled from the spec: `signum` from `utils.h` (not under `src/`),
the elementwise sign with `sign(0) = 0`. -/
def signum (x : ℝ) : ℝ := if x < 0 then -1 else if 0 < x then 1 else 0

namespace STM

variable {K F Dnl Dl : ℕ}

/-- Lines 574–583 for one example: response inside the gradient loop.
When `Dl = 0` the code skips the `+= linearPredictor·xl` (line 582); the
empty sum `linTerm` is 0, so the unconditional addition is the same. -/
def gradResponse (m : STM K F Dnl Dl) (ex : Sample Dnl Dl) : ℝ :=
  logSumExp (m.jointEnergy ex.xnl) + m.linTerm ex.xl

/-- Line 580: posterior over components, `exp(jointEnergy - response)`,
with the response before the linear term is added. -/
def posterior (m : STM K F Dnl Dl) (x : Fin Dnl → ℝ) (c : Fin K) : ℝ :=
  Real.exp (m.jointEnergy x c - logSumExp (m.jointEnergy x))

/-- Lines 586–588 for one example: its log-likelihood term. -/
def exLogLik (m : STM K F Dnl Dl) (L : Link) (D : ODist) (ex : Sample Dnl Dl) : ℝ :=
  D.ll ex.y (L.phi (m.gradResponse ex))

/-- Lines 597–598: `tmp = -distribution.gradient(output, phi(response)) *
phi'(response)` for one example. -/
def tmpScalar (m : STM K F Dnl Dl) (L : Link) (D : ODist) (ex : Sample Dnl Dl) : ℝ :=
  -(D.dgrad ex.y (L.phi (m.gradResponse ex))) * L.dphi (m.gradResponse ex)

/-- Line 600: `postTmp = posterior ⊙ tmp` for one example. -/
def postTmp (m : STM K F Dnl Dl) (L : Link) (D : ODist) (ex : Sample Dnl Dl)
    (c : Fin K) : ℝ :=
  m.posterior ex.xnl c * m.tmpScalar L D ex

/-- Lines 586–591: total log-likelihood accumulated over batches. -/
def totalLogLik (m : STM K F Dnl Dl) (L : Link) (D : ODist) (p : TrainParams)
    (data : List (Sample Dnl Dl)) : ℝ :=
  batchedSum (clampBatch p data.length) (m.exLogLik L D) data

/-- Lines 602–604: `biasesGrad -= postTmp.rowwise().sum()` over batches. -/
def rawBiasesGrad (m : STM K F Dnl Dl) (L : Link) (D : ODist) (p : TrainParams)
    (data : List (Sample Dnl Dl)) : Fin K → ℝ :=
  fun c => -batchedSum (clampBatch p data.length) (fun ex => m.postTmp L D ex c) data

/-- Lines 606–608: `weightsGrad -= postTmp * featureOutputSq.transpose()`. -/
def rawWeightsGrad (m : STM K F Dnl Dl) (L : Link) (D : ODist) (p : TrainParams)
    (data : List (Sample Dnl Dl)) : Fin K → Fin F → ℝ :=
  fun c f => -batchedSum (clampBatch p data.length)
    (fun ex => m.postTmp L D ex c * (m.featureOutput ex.xnl f) ^ 2) data

/-- Lines 610–615: `tmp2 = 2·weightsᵗ·postTmp`, `tmp3 = featureOutput ⊙ tmp2`,
`featuresGrad -= inputNonlinear · tmp3ᵗ`. -/
def rawFeaturesGrad (m : STM K F Dnl Dl) (L : Link) (D : ODist) (p : TrainParams)
    (data : List (Sample Dnl Dl)) : Fin Dnl → Fin F → ℝ :=
  fun i f => -batchedSum (clampBatch p data.length)
    (fun ex => ex.xnl i *
      (m.featureOutput ex.xnl f * (2 * ∑ c, m.weights c f * m.postTmp L D ex c))) data

/-- Lines 617–619: `predictorsGrad -= postTmp * inputNonlinear.transpose()`. -/
def rawPredictorsGrad (m : STM K F Dnl Dl) (L : Link) (D : ODist) (p : TrainParams)
    (data : List (Sample Dnl Dl)) : Fin K → Fin Dnl → ℝ :=
  fun c i => -batchedSum (clampBatch p data.length)
    (fun ex => m.postTmp L D ex c * ex.xnl i) data

/-- Lines 621–623: `linearPredictorGrad -= inputLinear * tmp.transpose()`
(no posterior pooling). -/
def rawLinearPredictorGrad (m : STM K F Dnl Dl) (L : Link) (D : ODist)
    (p : TrainParams) (data : List (Sample Dnl Dl)) : Fin Dl → ℝ :=
  fun j => -batchedSum (clampBatch p data.length)
    (fun ex => ex.xl j * m.tmpScalar L D ex) data

end STM

/-- The regularizer's gradient addition for one entry (lines 632–662):
`λ·signum(θ)` for L1, `λ·2·θ` for L2. -/
def regGradTerm (reg : Regularizer) (lam θ : ℝ) : ℝ :=
  match reg with
  | .L1 => lam * signum θ
  | .L2 => lam * 2 * θ

/-- The regularizer's penalty for a matrix block (lines 667–696):
`Σ|θ|` for L1, `Σθ²` for L2, scaled by the caller. -/
def penaltyMat (reg : Regularizer) {a b : ℕ} (M : Fin a → Fin b → ℝ) : ℝ :=
  match reg with
  | .L1 => ∑ i, ∑ j, |M i j|
  | .L2 => ∑ i, ∑ j, (M i j) ^ 2

/-- The regularizer's penalty for a vector block. -/
def penaltyVec (reg : Regularizer) {n : ℕ} (v : Fin n → ℝ) : ℝ :=
  match reg with
  | .L1 => ∑ i, |v i|
  | .L2 => ∑ i, (v i) ^ 2

namespace STM

variable {K F Dnl Dl : ℕ}

/-- Lines 628–630 for the biases block: gradient entries divided by the
normalization constant (only flagged blocks have gradient cells; biases
receive no regularization term). -/
def biasesGradOut (m : STM K F Dnl Dl) (L : Link) (D : ODist) (p : TrainParams)
    (data : List (Sample Dnl Dl)) : Fin K → ℝ :=
  fun c => if p.trainBiases then
    m.rawBiasesGrad L D p data c / normConst data.length else 0

/-- Lines 628–662 for the weights block: normalize, then add the
regularizer's gradient when flagged with a positive coefficient. -/
def weightsGradOut (m : STM K F Dnl Dl) (L : Link) (D : ODist) (p : TrainParams)
    (data : List (Sample Dnl Dl)) : Fin K → Fin F → ℝ :=
  fun c f => (if p.trainWeights then
      m.rawWeightsGrad L D p data c f / normConst data.length else 0)
    + (if p.trainWeights ∧ 0 < p.regularizeWeights then
      regGradTerm p.regularizer p.regularizeWeights (m.weights c f) else 0)

/-- Lines 628–662 for the features block. -/
def featuresGradOut (m : STM K F Dnl Dl) (L : Link) (D : ODist) (p : TrainParams)
    (data : List (Sample Dnl Dl)) : Fin Dnl → Fin F → ℝ :=
  fun i f => (if p.trainFeatures then
      m.rawFeaturesGrad L D p data i f / normConst data.length else 0)
    + (if p.trainFeatures ∧ 0 < p.regularizeFeatures then
      regGradTerm p.regularizer p.regularizeFeatures (m.features i f) else 0)

/-- Lines 628–662 for the predictors block. -/
def predictorsGradOut (m : STM K F Dnl Dl) (L : Link) (D : ODist) (p : TrainParams)
    (data : List (Sample Dnl Dl)) : Fin K → Fin Dnl → ℝ :=
  fun c i => (if p.trainPredictors then
      m.rawPredictorsGrad L D p data c i / normConst data.length else 0)
    + (if p.trainPredictors ∧ 0 < p.regularizePredictors then
      regGradTerm p.regularizer p.regularizePredictors (m.predictors c i) else 0)

/-- Lines 628–662 for the linear-predictor block. -/
def linearPredictorGradOut (m : STM K F Dnl Dl) (L : Link) (D : ODist)
    (p : TrainParams) (data : List (Sample Dnl Dl)) : Fin Dl → ℝ :=
  fun j => (if p.trainLinearPredictor then
      m.rawLinearPredictorGrad L D p data j / normConst data.length else 0)
    + (if p.trainLinearPredictor ∧ 0 < p.regularizeLinearPredictor then
      regGradTerm p.regularizer p.regularizeLinearPredictor (m.linearPredictor j) else 0)

/-- Line 665: `value = -logLik / normConst`. -/
def baseValue (m : STM K F Dnl Dl) (L : Link) (D : ODist) (p : TrainParams)
    (data : List (Sample Dnl Dl)) : ℝ :=
  -m.totalLogLik L D p data / normConst data.length

/-- Lines 667–697: the regularization penalty added to the objective, in
the code's order features, predictors, weights, linearPredictor. -/
def regValue (m : STM K F Dnl Dl) (p : TrainParams) : ℝ :=
  (if p.trainFeatures ∧ 0 < p.regularizeFeatures then
    p.regularizeFeatures * penaltyMat p.regularizer m.features else 0)
  + (if p.trainPredictors ∧ 0 < p.regularizePredictors then
    p.regularizePredictors * penaltyMat p.regularizer m.predictors else 0)
  + (if p.trainWeights ∧ 0 < p.regularizeWeights then
    p.regularizeWeights * penaltyMat p.regularizer m.weights else 0)
  + (if p.trainLinearPredictor ∧ 0 < p.regularizeLinearPredictor then
    p.regularizeLinearPredictor * penaltyVec p.regularizer m.linearPredictor else 0)

end STM

/-- Lines 699–703: `if(value != value) value = numeric_limits<double>::max()`.
`value != value` holds exactly for NaN, which real arithmetic cannot
represent; a NaN objective is modelled as `none`. -/
def nanGuard (v : Option ℝ) : ℝ :=
  match v with
  | none => maxFiniteDouble
  | some x => x

namespace STM

variable {K F Dnl Dl : ℕ}

/-- The objective returned by `parameterGradient` (lines 665–703): the
normalized negative log-likelihood plus the regularization penalty, passed
through the NaN guard (real arithmetic yields a non-NaN value). -/
def parameterGradientValue (m : STM K F Dnl Dl) (L : Link) (D : ODist)
    (p : TrainParams) (data : List (Sample Dnl Dl)) : ℝ :=
  nanGuard (some (m.baseValue L D p data + m.regValue p))

end STM

/-- C1: for every STM with `K ≥ 1` and matching inputs, the `n`-th entry of
the two-matrix response is the logsumexp over components of the joint
energy `Σ_f weights[c,f]·(features[:,f]·x)² + predictors[c,:]·x + biases[c]`
plus `linearPredictor · X_l[:,n]`; when `Dnl = Dl = 0` it is the constant
`logsumexp(biases)`, equal to `biases[0]` when `K = 1`. -/
theorem claim1_response_matches_spec {K F Dnl Dl : ℕ} (m : STM K F Dnl Dl)
    (hK : 0 < K) (Xnl : List (Fin Dnl → ℝ)) (Xl : List (Fin Dl → ℝ)) (n : ℕ)
    (hn : n < (m.responseMat Xnl Xl).length) (h1 : n < Xnl.length)
    (h2 : n < Xl.length) :
    (m.responseMat Xnl Xl).get ⟨n, hn⟩ =
      m.responseSpecCol (Xnl.get ⟨n, h1⟩) (Xl.get ⟨n, h2⟩)
    ∧ (Dnl = 0 → Dl = 0 →
        ((m.responseMat Xnl Xl).get ⟨n, hn⟩ = Real.log (∑ c, Real.exp (m.biases c))
          ∧ (K = 1 → (m.responseMat Xnl Xl).get ⟨n, hn⟩ = m.bias0))) := by
  have hget : (m.responseMat Xnl Xl).get ⟨n, hn⟩ =
      m.responsePair (Xnl.get ⟨n, h1⟩) (Xl.get ⟨n, h2⟩) := by
    simp [STM.responseMat, List.get_eq_getElem, List.getElem_zipWith]
  refine ⟨by rw [hget]; exact responsePair_eq_spec hK m _ _, ?_⟩
  intro hDnl hDl
  subst hDnl; subst hDl
  have hconst : (m.responseMat Xnl Xl).get ⟨n, hn⟩ = m.constResponse := by
    rw [hget]
    simp [STM.responsePair, STM.responseNL]
  refine ⟨by rw [hconst]; exact constResponse_eq hK m, ?_⟩
  intro hK1
  rw [hconst]
  unfold STM.constResponse
  rw [if_neg (by omega)]

/-- Witness for C1 at a concrete one-component model and singleton input. -/
theorem claim1_witness :
    0 < 1
    ∧ (mW1.responseMat [fun _ => (6:ℝ)] [fun _ => (7:ℝ)]).get
        ⟨0, by simp [STM.responseMat]⟩ =
        mW1.responseSpecCol (fun _ => (6:ℝ)) (fun _ => (7:ℝ)) :=
  ⟨Nat.one_pos,
    (claim1_response_matches_spec mW1 Nat.one_pos [fun _ => (6:ℝ)]
      [fun _ => (7:ℝ)] 0 (by simp [STM.responseMat]) (by simp) (by simp)).1⟩

/-- C3 counterexample: at the zero-input constant branch with `K = 2` and
biases of magnitude `1e4`, the code's pooling (line 229) exponentiates the
raw biases and overflows — `exp(10⁴)` alone already exceeds the largest
finite double — whereas the stable max-subtracting pooling evaluated at
the very same biases does not overflow: the failure is precisely the
missing max subtraction that the claim asserts for this branch. -/
theorem claim3_constant_branch_overflows :
    mBig.oconstResponse = none
    ∧ maxFiniteDouble < Real.exp (10 ^ 4)
    ∧ oLogSumExp mBig.biases = some (logSumExp mBig.biases) := by
  refine ⟨?_, maxFiniteDouble_lt_exp_1e4, ?_⟩
  · unfold STM.oconstResponse osumExp
    rw [if_pos (by norm_num)]
    have hsum : (∑ c : Fin 2, Real.exp (mBig.biases c)) = 2 * Real.exp (10 ^ 4) := by
      show (∑ _c : Fin 2, Real.exp ((10:ℝ) ^ 4)) = _
      rw [Fin.sum_univ_two]; ring
    rw [if_neg ?hneg]
    · rfl
    case hneg =>
      rw [hsum]
      push_neg
      have := maxFiniteDouble_lt_exp_1e4
      have := Real.exp_pos ((10:ℝ) ^ 4)
      linarith
  · refine oLogSumExp_no_overflow (by norm_num) ?_ mBig.biases
    push_cast
    unfold maxFiniteDouble
    norm_num

/-- C3 amended: the general pooling `logSumExp` subtracts the per-column
maximum, never overflows (for any `K` that fits in a double) and equals the
brute-force `ln (Σ exp)` exactly; the zero-input constant branch equals the
brute-force value in exact arithmetic but exponentiates the raw biases
(overflowing at magnitude `1e4` when `K > 1`, see the counterexample), and
returns `biases[0]` exactly when `K = 1`. -/
theorem claim3_stable_pooling_amended {K F Dnl Dl : ℕ} (m : STM K F Dnl Dl)
    (hK : 0 < K) (hKd : (K : ℝ) ≤ maxFiniteDouble) (e : Fin K → ℝ) :
    oLogSumExp e = some (logSumExp e)
    ∧ logSumExp e = Real.log (∑ c, Real.exp (e c))
    ∧ m.constResponse = Real.log (∑ c, Real.exp (m.biases c))
    ∧ (K = 1 → m.constResponse = m.bias0) := by
  refine ⟨oLogSumExp_no_overflow hK hKd e, logSumExp_eq_bruteForce hK e,
    constResponse_eq hK m, ?_⟩
  intro hK1
  unfold STM.constResponse
  rw [if_neg (by omega)]

/-- Witness for C3 at the one-component model. -/
theorem claim3_witness :
    0 < 1 ∧ (1:ℝ) ≤ maxFiniteDouble
    ∧ oLogSumExp (fun _ : Fin 1 => (3:ℝ)) = some (logSumExp (fun _ : Fin 1 => (3:ℝ))) :=
  ⟨Nat.one_pos, one_le_maxFiniteDouble,
    (claim3_stable_pooling_amended mW1 Nat.one_pos
      (by exact_mod_cast one_le_maxFiniteDouble) (fun _ => (3:ℝ))).1⟩

/-- C6: `parameterGradient` splits the examples into batches of size
`clamp(batchSize, 10, N)` and sums per-batch contributions; the objective
and every accumulated gradient entry have the same mathematical value for
every configured batch size, and the batched total is invariant under any
reordering of the batches. -/
theorem claim6_batch_invariance {K F Dnl Dl : ℕ} (m : STM K F Dnl Dl)
    (L : Link) (D : ODist) (p : TrainParams) (data : List (Sample Dnl Dl))
    (hne : data ≠ []) (bs1 bs2 : ℕ) :
    m.parameterGradientValue L D {p with batchSize := bs1} data =
      m.parameterGradientValue L D {p with batchSize := bs2} data
    ∧ m.biasesGradOut L D {p with batchSize := bs1} data =
      m.biasesGradOut L D {p with batchSize := bs2} data
    ∧ m.weightsGradOut L D {p with batchSize := bs1} data =
      m.weightsGradOut L D {p with batchSize := bs2} data
    ∧ m.featuresGradOut L D {p with batchSize := bs1} data =
      m.featuresGradOut L D {p with batchSize := bs2} data
    ∧ m.predictorsGradOut L D {p with batchSize := bs1} data =
      m.predictorsGradOut L D {p with batchSize := bs2} data
    ∧ m.linearPredictorGradOut L D {p with batchSize := bs1} data =
      m.linearPredictorGradOut L D {p with batchSize := bs2} data
    ∧ ∀ Lb, (chunks (clampBatch {p with batchSize := bs1} data.length) data).Perm Lb →
        m.totalLogLik L D {p with batchSize := bs1} data =
          (Lb.map (fun b => (b.map (m.exLogLik L D)).sum)).sum := by
  have hN : 0 < data.length := List.length_pos.mpr hne
  have h1 := @clampBatch_ne_zero {p with batchSize := bs1} data.length hN
  have h2 := @clampBatch_ne_zero {p with batchSize := bs2} data.length hN
  have key : ∀ f : Sample Dnl Dl → ℝ,
      batchedSum (clampBatch {p with batchSize := bs1} data.length) f data =
        batchedSum (clampBatch {p with batchSize := bs2} data.length) f data :=
    fun f => by rw [batchedSum_eq_sum _ h1, batchedSum_eq_sum _ h2]
  refine ⟨?_, ?_, ?_, ?_, ?_, ?_, ?_⟩
  · unfold STM.parameterGradientValue STM.baseValue STM.totalLogLik STM.regValue
    rw [key]
  · funext c
    unfold STM.biasesGradOut STM.rawBiasesGrad
    rw [key]
  · funext c f
    unfold STM.weightsGradOut STM.rawWeightsGrad
    rw [key]
  · funext i f
    unfold STM.featuresGradOut STM.rawFeaturesGrad
    rw [key]
  · funext c i
    unfold STM.predictorsGradOut STM.rawPredictorsGrad
    rw [key]
  · funext j
    unfold STM.linearPredictorGradOut STM.rawLinearPredictorGrad
    rw [key]
  · intro Lb hLb
    exact batchedSum_perm _ _ _ _ hLb

/-- A concrete configuration for witnesses. -/
def pW : TrainParams := ⟨true, true, true, true, true, 0, 0, 0, 0, .L2, 20⟩

/-- A concrete training example for witnesses. -/
def sW : Sample 1 1 := ⟨fun _ => 1, fun _ => 2, 1⟩

/-- A concrete link and distribution for witnesses. -/
def linkW : Link := ⟨fun x => x, fun _ => 1⟩

/-- A concrete output distribution for witnesses. -/
def distW : ODist := ⟨fun y mu => y - mu, fun y mu => mu - y⟩

/-- Witness for C6 at a singleton data set and batch sizes 1 and 5. -/
theorem claim6_witness :
    [sW] ≠ ([] : List (Sample 1 1))
    ∧ mW1.parameterGradientValue linkW distW {pW with batchSize := 1} [sW] =
        mW1.parameterGradientValue linkW distW {pW with batchSize := 5} [sW] :=
  ⟨by simp,
    (claim6_batch_invariance mW1 linkW distW pW [sW] (by simp) 1 5).1⟩

/-- C7: the returned objective is the total negative log-likelihood divided
by `N·ln(2)·dimOut` (exactly, when no regularization coefficient is set),
and every accumulated pre-regularization gradient entry is divided by the
same constant. -/
theorem claim7_normalization {K F Dnl Dl : ℕ} (m : STM K F Dnl Dl)
    (L : Link) (D : ODist) (p : TrainParams) (data : List (Sample Dnl Dl))
    (hw : p.regularizeWeights = 0) (hf : p.regularizeFeatures = 0)
    (hpp : p.regularizePredictors = 0) (hl : p.regularizeLinearPredictor = 0) :
    m.parameterGradientValue L D p data =
      -m.totalLogLik L D p data /
        ((data.length : ℝ) * Real.log 2 * (stmDimOut : ℝ))
    ∧ (p.trainBiases = true → ∀ c, m.biasesGradOut L D p data c =
        m.rawBiasesGrad L D p data c /
          ((data.length : ℝ) * Real.log 2 * (stmDimOut : ℝ)))
    ∧ (p.trainWeights = true → ∀ c f, m.weightsGradOut L D p data c f =
        m.rawWeightsGrad L D p data c f /
          ((data.length : ℝ) * Real.log 2 * (stmDimOut : ℝ)))
    ∧ (p.trainFeatures = true → ∀ i f, m.featuresGradOut L D p data i f =
        m.rawFeaturesGrad L D p data i f /
          ((data.length : ℝ) * Real.log 2 * (stmDimOut : ℝ)))
    ∧ (p.trainPredictors = true → ∀ c i, m.predictorsGradOut L D p data c i =
        m.rawPredictorsGrad L D p data c i /
          ((data.length : ℝ) * Real.log 2 * (stmDimOut : ℝ)))
    ∧ (p.trainLinearPredictor = true → ∀ j, m.linearPredictorGradOut L D p data j =
        m.rawLinearPredictorGrad L D p data j /
          ((data.length : ℝ) * Real.log 2 * (stmDimOut : ℝ))) := by
  have hnc : normConst data.length =
      (data.length : ℝ) * Real.log 2 * (stmDimOut : ℝ) := rfl
  refine ⟨?_, ?_, ?_, ?_, ?_, ?_⟩
  · unfold STM.parameterGradientValue STM.baseValue STM.regValue nanGuard
    rw [hw, hf, hpp, hl]
    simp [hnc]
  · intro hb c
    unfold STM.biasesGradOut
    rw [if_pos hb, hnc]
  · intro ht c f
    unfold STM.weightsGradOut
    rw [hw, if_pos ht, if_neg (by simp), hnc, add_zero]
  · intro ht i f
    unfold STM.featuresGradOut
    rw [hf, if_pos ht, if_neg (by simp), hnc, add_zero]
  · intro ht c i
    unfold STM.predictorsGradOut
    rw [hpp, if_pos ht, if_neg (by simp), hnc, add_zero]
  · intro ht j
    unfold STM.linearPredictorGradOut
    rw [hl, if_pos ht, if_neg (by simp), hnc, add_zero]

/-- Witness for C7 at concrete arguments with zero regularization. -/
theorem claim7_witness :
    pW.regularizeWeights = 0
    ∧ mW1.parameterGradientValue linkW distW pW [sW] =
        -mW1.totalLogLik linkW distW pW [sW] /
          (((1 : ℕ) : ℝ) * Real.log 2 * (stmDimOut : ℝ)) :=
  ⟨rfl, (claim7_normalization mW1 linkW distW pW [sW] rfl rfl rfl rfl).1⟩

/-- C8: for every block flagged trainable with a positive regularization
coefficient λ, the objective gains `λ·Σ|θ|` (L1) or `λ·Σθ²` (L2) over that
block and the block's gradient entries gain `λ·signum(θ)` (with
`signum 0 = 0`) or `2λθ`; blocks with zero coefficient or not flagged are
unaffected. -/
theorem claim8_regularization {K F Dnl Dl : ℕ} (m : STM K F Dnl Dl)
    (L : Link) (D : ODist) (p : TrainParams) (data : List (Sample Dnl Dl)) :
    (m.parameterGradientValue L D p data
      = m.baseValue L D p data
        + (if p.trainFeatures ∧ 0 < p.regularizeFeatures then
            p.regularizeFeatures * penaltyMat p.regularizer m.features else 0)
        + (if p.trainPredictors ∧ 0 < p.regularizePredictors then
            p.regularizePredictors * penaltyMat p.regularizer m.predictors else 0)
        + (if p.trainWeights ∧ 0 < p.regularizeWeights then
            p.regularizeWeights * penaltyMat p.regularizer m.weights else 0)
        + (if p.trainLinearPredictor ∧ 0 < p.regularizeLinearPredictor then
            p.regularizeLinearPredictor * penaltyVec p.regularizer m.linearPredictor
          else 0))
    ∧ penaltyMat Regularizer.L1 m.weights = ∑ c, ∑ f, |m.weights c f|
    ∧ penaltyMat Regularizer.L2 m.weights = ∑ c, ∑ f, (m.weights c f) ^ 2
    ∧ signum 0 = 0
    ∧ (p.trainWeights = true → 0 < p.regularizeWeights → ∀ c f,
        m.weightsGradOut L D p data c f
          = m.rawWeightsGrad L D p data c f / normConst data.length
            + (match p.regularizer with
              | .L1 => p.regularizeWeights * signum (m.weights c f)
              | .L2 => 2 * p.regularizeWeights * m.weights c f))
    ∧ (p.trainFeatures = true → 0 < p.regularizeFeatures → ∀ i f,
        m.featuresGradOut L D p data i f
          = m.rawFeaturesGrad L D p data i f / normConst data.length
            + (match p.regularizer with
              | .L1 => p.regularizeFeatures * signum (m.features i f)
              | .L2 => 2 * p.regularizeFeatures * m.features i f))
    ∧ (p.trainPredictors = true → 0 < p.regularizePredictors → ∀ c i,
        m.predictorsGradOut L D p data c i
          = m.rawPredictorsGrad L D p data c i / normConst data.length
            + (match p.regularizer with
              | .L1 => p.regularizePredictors * signum (m.predictors c i)
              | .L2 => 2 * p.regularizePredictors * m.predictors c i))
    ∧ (p.trainLinearPredictor = true → 0 < p.regularizeLinearPredictor → ∀ j,
        m.linearPredictorGradOut L D p data j
          = m.rawLinearPredictorGrad L D p data j / normConst data.length
            + (match p.regularizer with
              | .L1 => p.regularizeLinearPredictor * signum (m.linearPredictor j)
              | .L2 => 2 * p.regularizeLinearPredictor * m.linearPredictor j))
    ∧ (p.regularizeWeights = 0 → ∀ c f, m.weightsGradOut L D p data c f
        = if p.trainWeights then
            m.rawWeightsGrad L D p data c f / normConst data.length else 0)
    ∧ (p.trainWeights = false → ∀ c f, m.weightsGradOut L D p data c f = 0) := by
  refine ⟨?_, rfl, rfl, by unfold signum; rw [if_neg (lt_irrefl 0), if_neg (lt_irrefl 0)],
    ?_, ?_, ?_, ?_, ?_, ?_⟩
  · unfold STM.parameterGradientValue STM.regValue nanGuard
    ring
  · intro ht hr c f
    unfold STM.weightsGradOut regGradTerm
    rw [if_pos ht, if_pos ⟨ht, hr⟩]
    cases p.regularizer <;> ring
  · intro ht hr i f
    unfold STM.featuresGradOut regGradTerm
    rw [if_pos ht, if_pos ⟨ht, hr⟩]
    cases p.regularizer <;> ring
  · intro ht hr c i
    unfold STM.predictorsGradOut regGradTerm
    rw [if_pos ht, if_pos ⟨ht, hr⟩]
    cases p.regularizer <;> ring
  · intro ht hr j
    unfold STM.linearPredictorGradOut regGradTerm
    rw [if_pos ht, if_pos ⟨ht, hr⟩]
    cases p.regularizer <;> ring
  · intro hz c f
    unfold STM.weightsGradOut
    rw [hz, if_neg (show ¬(p.trainWeights = true ∧ (0:ℝ) < 0) by simp), add_zero]
  · intro ht c f
    unfold STM.weightsGradOut
    rw [if_neg (by simp [ht]), if_neg (by simp [ht]), add_zero]

/-- Witness for C8 at a concrete configuration with an active L2 penalty on
the weights block. -/
theorem claim8_witness :
    (true = true ∧ (0:ℝ) < 1)
    ∧ ∀ c f, mW1.weightsGradOut linkW distW
        ⟨true, true, true, true, true, 1, 0, 0, 0, .L2, 20⟩ [sW] c f
      = mW1.rawWeightsGrad linkW distW
          ⟨true, true, true, true, true, 1, 0, 0, 0, .L2, 20⟩ [sW] c f
          / normConst 1
        + 2 * (1:ℝ) * mW1.weights c f :=
  ⟨⟨rfl, one_pos⟩,
    (claim8_regularization mW1 linkW distW
      ⟨true, true, true, true, true, 1, 0, 0, 0, .L2, 20⟩ [sW]).2.2.2.2.1
      rfl one_pos⟩

/-- C9: a NaN final objective (representable only as `none` over the
reals) is replaced by the largest finite double, without raising an error;
every non-NaN value is returned unchanged, and the real-valued pipeline of
`parameterGradient` passes its computed objective through the guard
untouched. -/
theorem claim9_nan_guard :
    nanGuard none = maxFiniteDouble
    ∧ (∀ x : ℝ, nanGuard (some x) = x)
    ∧ ∀ (K F Dnl Dl : ℕ) (m : STM K F Dnl Dl) (L : Link) (D : ODist)
        (p : TrainParams) (data : List (Sample Dnl Dl)),
        m.parameterGradientValue L D p data
          = m.baseValue L D p data + m.regValue p :=
  ⟨rfl, fun _ => rfl, fun _ _ _ _ _ _ _ _ _ => rfl⟩

/-- Modelled from the spec: the result of training the plain-linear GLM
sub-model (`GLM::train`; `glm.cpp` is not under `src/`): a fitted weight
vector, a fitted bias, and the convergence flag it returns. -/
structure GLMFit (Dl : ℕ) where
  weights : Fin Dl → ℝ
  bias : ℝ
  converged : Bool

/-- Modelled from the spec: the plain-linear GLM's response `w·x + b`. -/
def glmResponse {Dl : ℕ} (w : Fin Dl → ℝ) (b : ℝ) (x : Fin Dl → ℝ) : ℝ :=
  (∑ j, w j * x j) + b

/-- The clamping threshold `1e-50` of `STM::train` (line 739). -/
def tinyMean : ℝ := 1 / 10 ^ 50

namespace STM

variable {K F Dnl Dl : ℕ}

/-- Lines 723–777, the `STM::train` dispatch.  `inv?` is the invertible
facet of the nonlinearity (`none` when the `dynamic_cast` fails); `glmFit`
abstracts the delegated `GLM::train` (not under `src/`) applied to the
linear inputs and outputs; `generalFit` abstracts the general optimizer
`Trainable::train`.  With zero total input dimensionality the bias is set
from the output mean, clamped into `[1e-50, ∞)` when it lies in
`[0, 1e-50)` (lines 737–741); with only linear inputs the GLM's weights
and bias are copied back (lines 745–772); the shape check at line 746
always passes here because the input columns carry their row count in the
type. -/
def train (m : STM K F Dnl Dl) (inv? : Option (ℝ → ℝ))
    (glmFit : List (Fin Dl → ℝ) → List ℝ → GLMFit Dl)
    (generalFit : Unit → STM K F Dnl Dl × Bool)
    (inputs : List (Fin (Dnl + Dl) → ℝ)) (outputs : List ℝ) :
    Except Err (STM K F Dnl Dl × Bool) :=
  if Dnl + Dl = 0 then
    match inv? with
    | none => .error .notInvertible
    | some inv =>
      let mean := outputs.sum / outputs.length
      let mean' := if 0 ≤ mean ∧ mean < tinyMean then tinyMean else mean
      .ok ({ m with biases := fun _ => inv mean' - Real.log K }, true)
  else if Dnl = 0 then
    let fit := glmFit (inputs.map bottomRows) outputs
    .ok ({ m with linearPredictor := fit.weights,
                  biases := fun _ => fit.bias - Real.log K }, fit.converged)
  else
    .ok (generalFit ())

end STM

/-- A zero-input one-component model. -/
def mZero : STM 1 1 0 0 :=
  ⟨fun _ => 0, fun _ _ => 0, fun _ _ => 0, fun _ i => i.elim0, fun j => j.elim0⟩

/-- A trivial GLM-fit stub for the zero-input case. -/
def gfit0 : List (Fin 0 → ℝ) → List ℝ → GLMFit 0 := fun _ _ => ⟨fun j => j.elim0, 0, true⟩

/-- A trivial general-optimizer stub for the zero-input case. -/
def gen0 : Unit → STM 1 1 0 0 × Bool := fun _ => (mZero, false)

/-- C4 counterexample: with the exponential nonlinearity (its inverse is
`ln`, per the spec, since `nonlinearities.cpp` is not under `src/`) and
outputs `[1e-60]`, line 739 clamps the mean to `1e-50`, so the bias becomes
`ln(1e-50) - ln 1` — not `inverse(mean(output)) - ln 1 = ln(1e-60) - ln 1`
as the claim requires. -/
theorem claim4_clamp_counterexample :
    (mZero.train (some Real.log) gfit0 gen0 [] [1 / 10 ^ 60]).map
        (fun r => r.1.biases 0)
      = .ok (Real.log tinyMean - Real.log 1)
    ∧ Real.log tinyMean - Real.log 1 ≠ Real.log (1 / 10 ^ 60) - Real.log 1 := by
  constructor
  · unfold STM.train
    rw [if_pos rfl]
    have hmean : (List.sum [1 / 10 ^ 60] : ℝ) / (List.length [(1:ℝ) / 10 ^ 60]) =
        1 / 10 ^ 60 := by
      norm_num
    simp only [hmean]
    rw [if_pos (by constructor <;> norm_num [tinyMean])]
    simp [Except.map]
  · intro heq
    have hlog : Real.log tinyMean = Real.log (1 / 10 ^ 60) := by linarith
    have h1 : (0:ℝ) < 1 / 10 ^ 50 := by norm_num
    have h2 : (0:ℝ) < 1 / 10 ^ 60 := by norm_num
    have := congrArg Real.exp hlog
    rw [show tinyMean = 1 / 10 ^ 50 from rfl, Real.exp_log h1, Real.exp_log h2] at this
    norm_num at this

/-- C4 amended: with zero total input dimensionality and an invertible
nonlinearity, `train` sets every bias to `inverse(mean') - ln K` where
`mean'` is the output mean clamped below by `1e-50` when it lies in
`[0, 1e-50)`; whenever the mean is at least `1e-50` this is exactly
`inverse(mean(output)) - ln K`.  It returns `true`, never invokes the
general optimizer, and a non-invertible nonlinearity is an immediate error
with the model untouched. -/
theorem claim4_train_zero_dim_amended {K F : ℕ} (m : STM K F 0 0)
    (inv : ℝ → ℝ) (glmFit : List (Fin 0 → ℝ) → List ℝ → GLMFit 0)
    (gf1 gf2 : Unit → STM K F 0 0 × Bool)
    (inputs : List (Fin (0 + 0) → ℝ)) (outputs : List ℝ)
    (hmean : tinyMean ≤ outputs.sum / outputs.length) :
    m.train (some inv) glmFit gf1 inputs outputs
      = .ok ({ m with biases := (fun _ =>
          inv (outputs.sum / outputs.length) - Real.log K) }, true)
    ∧ m.train (some inv) glmFit gf1 inputs outputs
      = m.train (some inv) glmFit gf2 inputs outputs
    ∧ m.train none glmFit gf1 inputs outputs = .error .notInvertible := by
  have htiny : (0:ℝ) < tinyMean := by norm_num [tinyMean]
  refine ⟨?_, ?_, ?_⟩
  · unfold STM.train
    rw [if_pos rfl]
    simp only [if_neg (show ¬(0 ≤ outputs.sum / (outputs.length : ℝ)
      ∧ outputs.sum / (outputs.length : ℝ) < tinyMean) by
        push_neg
        intro _
        linarith)]
  · unfold STM.train
    rw [if_pos rfl, if_pos rfl]
  · unfold STM.train
    rw [if_pos rfl]

/-- Witness for C4 at a concrete model and outputs with mean 1/2. -/
theorem claim4_witness :
    tinyMean ≤ ([(1:ℝ) / 2].sum / ([(1:ℝ) / 2].length : ℝ))
    ∧ mZero.train (some Real.log) gfit0 gen0 [] [1 / 2]
      = .ok ({ mZero with biases := (fun _ =>
          Real.log ([(1:ℝ) / 2].sum / ([(1:ℝ) / 2].length : ℝ))
            - Real.log ((1:ℕ) : ℝ)) }, true) :=
  ⟨by norm_num [tinyMean],
    (claim4_train_zero_dim_amended mZero Real.log gfit0 gen0 gen0 [] [1 / 2]
      (by norm_num [tinyMean])).1⟩

/-- With all biases equal to `β`, the constant pooled bias is
`ln K + β` in both of its branches. -/
theorem constResponse_const {K F Dnl Dl : ℕ} (m : STM K F Dnl Dl) (hK : 0 < K)
    (β : ℝ) (hb : ∀ c, m.biases c = β) :
    m.constResponse = Real.log K + β := by
  unfold STM.constResponse
  split
  · rename_i h1
    have hsum : (∑ c, Real.exp (m.biases c)) = (K : ℝ) * Real.exp β := by
      rw [Finset.sum_congr rfl (fun c _ => by rw [hb c])]
      simp [Finset.sum_const, Finset.card_univ, nsmul_eq_mul]
    rw [hsum, Real.log_mul (by positivity) (Real.exp_ne_zero β), Real.log_exp]
  · rename_i h1
    have hK1 : K = 1 := by omega
    subst hK1
    unfold STM.bias0
    rw [dif_pos hK, hb]
    simp

/-- C5: with zero nonlinear but positive linear input dimensionality,
`train` delegates the whole fit to the GLM built from the same
collaborators, copies the fitted weight vector into `linearPredictor`,
sets every bias to `glmBias - ln K`, forwards the GLM's convergence flag,
never consults the general optimizer, and the resulting model's response
coincides exactly with the trained GLM's response (`w·x + b`): the
`-ln K` bias shift cancels against the `ln K` of pooling `K` equal
components. -/
theorem claim5_glm_delegation {K F Dl : ℕ} (m : STM K F 0 Dl)
    (hK : 0 < K) (hDl : 0 < Dl) (inv? : Option (ℝ → ℝ))
    (glmFit : List (Fin Dl → ℝ) → List ℝ → GLMFit Dl)
    (gf1 gf2 : Unit → STM K F 0 Dl × Bool)
    (inputs : List (Fin (0 + Dl) → ℝ)) (outputs : List ℝ) :
    m.train inv? glmFit gf1 inputs outputs
      = .ok ({ m with
          linearPredictor := (glmFit (inputs.map STM.bottomRows) outputs).weights
          biases := (fun _ =>
            (glmFit (inputs.map STM.bottomRows) outputs).bias - Real.log K) },
        (glmFit (inputs.map STM.bottomRows) outputs).converged)
    ∧ m.train inv? glmFit gf1 inputs outputs = m.train inv? glmFit gf2 inputs outputs
    ∧ ∀ (w : Fin Dl → ℝ) (b : ℝ) (x : Fin Dl → ℝ),
        ({ m with
            linearPredictor := w
            biases := (fun _ => b - Real.log K) } : STM K F 0 Dl).responsePair
          Fin.elim0 x
          = glmResponse w b x := by
  have hne : ¬(0 + Dl = 0) := by omega
  refine ⟨?_, ?_, ?_⟩
  · unfold STM.train
    rw [if_neg hne, if_pos rfl]
  · unfold STM.train
    rw [if_neg hne, if_neg hne, if_pos rfl, if_pos rfl]
  · intro w b x
    unfold STM.responsePair
    rw [if_pos hDl, if_neg (lt_irrefl 0)]
    rw [constResponse_const _ hK (b - Real.log K) (fun c => rfl)]
    unfold STM.linTerm glmResponse
    ring

/-- A concrete model with only a linear input for the C5 witness. -/
def mLin : STM 1 1 0 1 :=
  ⟨fun _ => 0, fun _ _ => 0, fun _ _ => 0, fun _ i => i.elim0, fun _ => 0⟩

/-- A concrete GLM-fit stub returning weights 3, bias 4. -/
def gfitW : List (Fin 1 → ℝ) → List ℝ → GLMFit 1 := fun _ _ => ⟨fun _ => 3, 4, true⟩

/-- A general-optimizer stub for the C5 witness. -/
def genLin : Unit → STM 1 1 0 1 × Bool := fun _ => (mLin, false)

/-- Witness for C5 at a concrete linear-only model. -/
theorem claim5_witness :
    0 < 1
    ∧ mLin.train none gfitW genLin [] []
      = .ok ({ mLin with
          linearPredictor :=
            (gfitW (([] : List (Fin (0 + 1) → ℝ)).map STM.bottomRows) []).weights
          biases := (fun _ =>
            (gfitW (([] : List (Fin (0 + 1) → ℝ)).map STM.bottomRows) []).bias
              - Real.log ((1:ℕ) : ℝ)) },
        (gfitW (([] : List (Fin (0 + 1) → ℝ)).map STM.bottomRows) []).converged) :=
  ⟨Nat.one_pos,
    (claim5_glm_delegation mLin Nat.one_pos Nat.one_pos none gfitW genLin genLin
      [] []).1⟩

/-- C10: with positive linear input dimensionality, the single-matrix
overloads of `response` and `logLikelihood` interpret the top `Dnl` rows
of the input as the nonlinear block and the bottom `Dl` rows as the linear
block — they return exactly the two-matrix overloads applied to
`input.topRows(Dnl)` and `input.bottomRows(Dl)` — and raise a shape error
whenever `input.rows()` differs from `Dnl + Dl`. -/
theorem reindex_self {a : ℕ} (h : a = a) (x : Fin a → ℝ) :
    STM.reindex h x = x := by
  funext i
  exact congrArg x (Fin.ext (by simp))

theorem claim10_single_matrix_split {K F Dnl Dl : ℕ} (m : STM K F Dnl Dl)
    (hDl : 0 < Dl) (phi : ℝ → ℝ) (dll : ℝ → ℝ → ℝ)
    (X : List (Fin (Dnl + Dl) → ℝ)) (Y : List ℝ) :
    m.responseSingle (Dnl + Dl) X
      = .ok (X.map (fun x => m.responsePair (STM.topRows x) (STM.bottomRows x)))
    ∧ m.logLikelihoodSingle phi dll (Dnl + Dl) X Y
      = m.logLikelihoodPair phi dll (X.map STM.topRows) (X.map STM.bottomRows) Y
    ∧ ∀ (rows : ℕ) (X' : List (Fin rows → ℝ)), rows ≠ Dnl + Dl →
        m.responseSingle rows X' = .error .inputDim
        ∧ m.logLikelihoodSingle phi dll rows X' Y = .error .inputDim := by
  refine ⟨?_, ?_, ?_⟩
  · unfold STM.responseSingle
    rw [dif_pos rfl, if_pos hDl]
    simp [reindex_self]
  · unfold STM.logLikelihoodSingle
    rw [dif_pos rfl, if_pos hDl]
    simp [reindex_self]
  · intro rows X' hrows
    constructor
    · unfold STM.responseSingle
      rw [dif_neg hrows]
    · unfold STM.logLikelihoodSingle
      rw [dif_neg hrows]

/-- Witness for C10 at a concrete two-row input. -/
theorem claim10_witness :
    0 < 1
    ∧ mW1.responseSingle (1 + 1) [(fun _ => (1:ℝ) : Fin (1 + 1) → ℝ)]
      = .ok ([(fun _ => (1:ℝ) : Fin (1 + 1) → ℝ)].map
          (fun x => mW1.responsePair (STM.topRows x) (STM.bottomRows x)))
    ∧ mW1.responseSingle 3 [(fun _ => (0:ℝ) : Fin 3 → ℝ)] = .error .inputDim :=
  ⟨Nat.one_pos,
    (claim10_single_matrix_split mW1 Nat.one_pos (fun x => x) (fun _ mu => mu)
      [(fun _ => (1:ℝ) : Fin (1 + 1) → ℝ)] []).1,
    ((claim10_single_matrix_split mW1 Nat.one_pos (fun x => x) (fun _ mu => mu)
      [(fun _ => (1:ℝ) : Fin (1 + 1) → ℝ)] []).2.2 3
      [(fun _ => (0:ℝ) : Fin 3 → ℝ)] (by omega)).1⟩
